import Mathlib

/-!
Verification of the docai language-detection, evaluation and OCR post-processing logic

Shallow embedding of the decision logic of

* `src/src/ocr/language_detector.py` (`LanguageDetector`),
* `src/src/nlg/visual_to_text.py` (`VisualToTextGenerator.evaluate_generation`),
* `src/src/ocr/multilingual_ocr.py` (`MultilingualOCR._post_process_text_regions`,
  the pure tail of `MultilingualOCR.extract_text`),

together with theorems settling the frozen claims about this code.

Modelling conventions:

* Python floats are modelled as `ℚ` (every literal in the source is an exact
  decimal); Python strings as Lean `String` (a list of unicode scalars, matching
  Python's per-code-point `len`/indexing for the scripts that occur here).
* The external classifier libraries (`langid`, `langdetect`, the BERT scorer,
  `nltk`'s `sentence_bleu`, `difflib`'s `SequenceMatcher`) are not part of this
  repository; they are modelled as oracle parameters.  A call that may raise is
  an `Except` value; `Except.error` models a raised exception.
* `collections.Counter` (an insertion-ordered dict) is modelled by the list of
  codes in first-occurrence order (`codesInOrder`) together with the counting
  function `voteCount`.  `Counter.most_common(1)` is Python `max` keeping the
  first maximum (`firstMaxBy`); `Counter.most_common()` and Python's stable
  `sorted(..., reverse=True)` are modelled by a stable insertion sort
  (`sortDescBy`).
* Python's `str.lower` is modelled on ASCII letters (`Char.toLower`); it is the
  identity on the Devanagari and Arabic-script characters used by this module.
* Python's `str.strip`/`\s` whitespace class is modelled by the common ASCII
  whitespace characters (`pyIsSpace`), which covers every text this module
  handles.
-/

namespace DocAI

instance {ε α : Type} [DecidableEq ε] [DecidableEq α] : DecidableEq (Except ε α) := fun a b =>
  match a, b with
  | .ok x, .ok y =>
    if h : x = y then .isTrue (by rw [h]) else .isFalse (fun hh => h (Except.ok.injEq .. ▸ hh))
  | .error x, .error y =>
    if h : x = y then .isTrue (by rw [h]) else .isFalse (fun hh => h (Except.error.injEq .. ▸ hh))
  | .ok _, .error _ => .isFalse (fun hh => Except.noConfusion hh)
  | .error _, .ok _ => .isFalse (fun hh => Except.noConfusion hh)

/-! ## Data model (`language_detector.py` lines 21-37) -/

/-- `LanguageDetectionResult` dataclass (lines 21-28). -/
structure LanguageDetectionResult where
  detected_language : String
  confidence : ℚ
  alternative_languages : List (String × ℚ)
  language_code : String
  is_reliable : Bool
deriving DecidableEq, Repr

/-- `self.supported_languages` (lines 46-53), in insertion order. -/
def supportedLanguages : List (String × String) :=
  [("en", "English"), ("hi", "Hindi"), ("ur", "Urdu"),
   ("ar", "Arabic"), ("ne", "Nepalese"), ("fa", "Persian")]

def supportedCodes : List String := supportedLanguages.map (·.1)

/-- `self.supported_languages.get(code, code)`; for the six supported codes this
agrees with the direct indexing `self.supported_languages[code]` used elsewhere. -/
def langName (c : String) : String :=
  (((supportedLanguages.find? (fun p => p.1 = c)).map (·.2)).getD c)

/-- The "Unknown" result built at lines 116-123 (and 189-195, 299-305, 353-359). -/
def unknownResult : LanguageDetectionResult :=
  { detected_language := "Unknown", confidence := 0, alternative_languages := [],
    language_code := "unknown", is_reliable := false }

/-- ASCII whitespace, the characters `str.strip` removes for the texts in scope. -/
def pyIsSpace (c : Char) : Bool :=
  c == ' ' || c == '\t' || c == '\n' || c == '\r' || c == '\x0b' || c == '\x0c'

/-- `not text or len(text.strip()) == 0` (line 116). -/
def allWhitespace (s : String) : Bool := s.data.all pyIsSpace

/-- `str.lower`, character-wise (ASCII; identity on the other scripts used here). -/
def pyToLower (c : Char) : Char := c.toLower

def lowerStr (s : String) : String := ⟨s.data.map pyToLower⟩

/-! ## Generic order-sensitive helpers for Python's dict/Counter idioms -/

/-- Python `max(xs, key=f)`: the first element attaining the maximal key.
Models `Counter.most_common(1)[0]` (which `heapq.nlargest` implements via `max`)
and `max(scores, key=scores.get)`. -/
def firstMaxBy {α β : Type} [LinearOrder β] (f : α → β) : List α → Option α
  | [] => none
  | a :: l =>
    match firstMaxBy f l with
    | none => some a
    | some b => if f b > f a then some b else some a

/-- Python's stable descending sort `sorted(xs, key=f, reverse=True)` (and the
full `Counter.most_common()`): a stable insertion sort. -/
def sortDescBy {α β : Type} [LinearOrder β] (f : α → β) (l : List α) : List α :=
  List.insertionSort (fun a b => f b ≤ f a) l

/-- The keys of an insertion-ordered dict built by iterating over `l`:
`l` deduplicated keeping first occurrences. -/
def firstOccur : List String → List String
  | [] => []
  | x :: xs => x :: (firstOccur xs).filter (fun y => y ≠ x)

/-! ## Character-set patterns (`self.language_patterns`, lines 56-63) -/

def isLatinLetter (c : Char) : Bool :=
  ('a' ≤ c && c ≤ 'z') || ('A' ≤ c && c ≤ 'Z')

/-- Devanagari block `ऀ-ॿ`. -/
def isDevanagari (c : Char) : Bool := 0x900 ≤ c.toNat && c.toNat ≤ 0x97F

/-- Arabic block `؀-ۿ`. -/
def isArabicBlock (c : Char) : Bool := 0x600 ≤ c.toNat && c.toNat ≤ 0x6FF

/-- `self.language_patterns` in insertion order. -/
def languagePatterns : List (String × (Char → Bool)) :=
  [("en", isLatinLetter), ("hi", isDevanagari), ("ur", isArabicBlock),
   ("ar", isArabicBlock), ("ne", isDevanagari), ("fa", isArabicBlock)]

/-- `len(re.findall(pattern, text)) / len(text)` for a single-character class:
the number of matching characters over the length (lines 275-279). -/
def patternScore (text : String) (pat : Char → Bool) : ℚ :=
  if 0 < text.data.length then
    (text.data.countP pat : ℚ) / (text.data.length : ℚ)
  else 0

/-- `LanguageDetector._detect_with_patterns` (lines 270-305). -/
def detectWithPatterns (text : String) : LanguageDetectionResult :=
  let scores := languagePatterns.map (fun p => (p.1, patternScore text p.2))
  match firstMaxBy (fun p => p.2) scores with
  | none => unknownResult
  | some best =>
    let alternatives :=
      ((((sortDescBy (fun p => p.2) scores).drop 1).take 3).filter
        (fun p => decide ((0.1 : ℚ) < p.2))).map (fun p => (langName p.1, p.2))
    { detected_language := langName best.1
      confidence := best.2
      alternative_languages := alternatives
      language_code := best.1
      is_reliable := decide ((0.3 : ℚ) < best.2) }

/-! ## Lexical/character-frequency features (`self.language_features`, lines 66-91) -/

/-- Substring containment, Python's `needle in hay`. -/
def containsSub (hay needle : List Char) : Bool :=
  hay.tails.any (fun t => needle.isPrefixOf t)

/-- `self.language_features` in insertion order: per language the ten
`common_words` and the five `character_freq` entries. -/
def languageFeatures : List (String × (List String × List (Char × ℚ))) :=
  [("en", (["the", "and", "or", "in", "on", "at", "to", "for", "of", "with"],
           [('e', 0.12), ('t', 0.09), ('a', 0.08), ('o', 0.08), ('i', 0.07)])),
   ("hi", (["का", "के", "की", "है", "में", "और", "या", "पर", "से", "तक"],
           [('ा', 0.15), ('े', 0.12), ('ी', 0.10), ('क', 0.08), ('म', 0.07)])),
   ("ur", (["اور", "کی", "کے", "ہے", "میں", "پر", "سے", "تک", "یا", "لیے"],
           [('ا', 0.12), ('ی', 0.10), ('ر', 0.08), ('ک', 0.07), ('م', 0.06)])),
   ("ar", (["في", "من", "إلى", "على", "عن", "مع", "هذا", "هذه", "التي", "الذي"],
           [('ا', 0.15), ('ل', 0.12), ('ي', 0.10), ('ن', 0.08), ('ر', 0.07)])),
   ("ne", (["को", "का", "की", "मा", "र", "पनि", "तर", "अथवा", "यो", "त्यो"],
           [('ा', 0.14), ('े', 0.11), ('ी', 0.09), ('क', 0.08), ('म', 0.07)])),
   ("fa", (["در", "از", "به", "با", "که", "این", "آن", "برای", "تا", "یا"],
           [('ا', 0.13), ('ی', 0.11), ('ر', 0.09), ('ن', 0.08), ('د', 0.07)]))]

/-- `word_score` of `_detect_with_features` (lines 315-317): the fraction of
`common_words` occurring as substrings of the lowered text. -/
def wordScoreOf (text : String) (words : List String) : ℚ :=
  (words.countP (fun w => containsSub (text.data.map pyToLower) w.data) : ℚ) /
    (words.length : ℚ)

/-- `char_score` of `_detect_with_features` (lines 320-329): mean over the
`character_freq` entries of `1 - |expected - actual|`, zero for empty text. -/
def charScoreOf (text : String) (freqs : List (Char × ℚ)) : ℚ :=
  if 0 < text.data.length then
    ((freqs.map (fun p =>
        1 - |p.2 - ((text.data.map pyToLower).count p.1 : ℚ) / (text.data.length : ℚ)|)).sum) /
      (freqs.length : ℚ)
  else 0

/-- The per-language score of `_detect_with_features` (lines 311-333):
`word_score * 0.6 + char_score * 0.4`. -/
def featureScore (text : String) (words : List String) (freqs : List (Char × ℚ)) : ℚ :=
  wordScoreOf text words * 0.6 + charScoreOf text freqs * 0.4

/-- `LanguageDetector._detect_with_features` (lines 307-359). -/
def detectWithFeatures (text : String) : LanguageDetectionResult :=
  let scores := languageFeatures.map (fun p => (p.1, featureScore text p.2.1 p.2.2))
  match firstMaxBy (fun p => p.2) scores with
  | none => unknownResult
  | some best =>
    let alternatives :=
      ((((sortDescBy (fun p => p.2) scores).drop 1).take 3).filter
        (fun p => decide ((0.1 : ℚ) < p.2))).map (fun p => (langName p.1, p.2))
    { detected_language := langName best.1
      confidence := best.2
      alternative_languages := alternatives
      language_code := best.1
      is_reliable := decide ((0.4 : ℚ) < best.2) }

/-! ## External classifier oracles (`langid`, `langdetect`) -/

/-- Oracles for the external libraries used by `_detect_with_langid` and
`_detect_with_langdetect`.  `Except.error` models a raised exception.

* `langidClassify`: `langid.classify(text)`, a `(lang_code, confidence)` pair.
* `detectLangs`: `langdetect.detect_langs(text)`, a list of `(lang, prob)` pairs.
* `detectOne`: `langdetect.detect(text)`; an error models `LangDetectException`
  (or any other exception, which reaches the same fallback). -/
structure Oracles where
  langidClassify : String → Except Unit (String × ℚ)
  detectLangs : String → Except Unit (List (String × ℚ))
  detectOne : String → Except Unit String

/-- `lang_mapping` of `_find_closest_language` (lines 364-371). -/
def langMapping : List (String × String) :=
  [("en", "en"), ("eng", "en"), ("english", "en"),
   ("hi", "hi"), ("hin", "hi"), ("hindi", "hi"),
   ("ur", "ur"), ("urd", "ur"), ("urdu", "ur"),
   ("ar", "ar"), ("ara", "ar"), ("arabic", "ar"),
   ("ne", "ne"), ("nep", "ne"), ("nepali", "ne"),
   ("fa", "fa"), ("fas", "fa"), ("persian", "fa"), ("farsi", "fa")]

/-- `LanguageDetector._find_closest_language` (lines 361-391).  Note the code
scales the confidence by `0.8` but tests reliability against the *unscaled*
confidence. -/
def findClosestLanguage (detected : String) (confidence : ℚ) : LanguageDetectionResult :=
  let key := lowerStr detected
  let mapped := ((langMapping.find? (fun p => p.1 = key)).map (·.2)).getD key
  if mapped ∈ supportedCodes then
    { detected_language := langName mapped
      confidence := confidence * 0.8
      alternative_languages := []
      language_code := mapped
      is_reliable := decide ((0.8 : ℚ) < confidence) }
  else
    { detected_language := "English", confidence := 0.5, alternative_languages := [],
      language_code := "en", is_reliable := false }

/-- `LanguageDetector._detect_with_langid` (lines 197-217).  A raised exception
falls back to `_detect_with_patterns`. -/
def detectWithLangid (o : Oracles) (text : String) : LanguageDetectionResult :=
  match o.langidClassify text with
  | .error _ => detectWithPatterns text
  | .ok (code, conf) =>
    if code ∈ supportedCodes then
      { detected_language := langName code
        confidence := conf
        alternative_languages := []
        language_code := code
        is_reliable := decide ((0.7 : ℚ) < conf) }
    else findClosestLanguage code conf

/-- The `best_match`/`best_confidence` loop of `_detect_with_langdetect`
(lines 227-234): fold with initial `(None, 0.0)`, updating on a supported
language with strictly larger probability. -/
def bestSupported (languages : List (String × ℚ)) : Option String × ℚ :=
  languages.foldl
    (fun acc p => if p.1 ∈ supportedCodes ∧ acc.2 < p.2 then (some p.1, p.2) else acc)
    (none, 0)

/-- `LanguageDetector._detect_with_langdetect` (lines 219-268).  When no
supported best match is found (or `detect_langs` returns an empty list), the
code falls through to single `detect`, and failing that to
`_detect_with_patterns`. -/
def detectWithLangdetect (o : Oracles) (text : String) : LanguageDetectionResult :=
  let fallback : Option LanguageDetectionResult :=
    match o.detectOne text with
    | .ok code =>
      if code ∈ supportedCodes then
        some { detected_language := langName code, confidence := 0.8,
               alternative_languages := [], language_code := code, is_reliable := true }
      else none
    | .error _ => none
  match o.detectLangs text with
  | .error _ => detectWithPatterns text
  | .ok languages =>
    if languages.isEmpty then fallback.getD (detectWithPatterns text)
    else
      match bestSupported languages with
      | (some best, bestConf) =>
        let alternatives :=
          ((languages.filter (fun p => decide (p.1 ≠ best) && decide (p.1 ∈ supportedCodes))).map
            (fun p => (langName p.1, p.2))).take 3
        { detected_language := langName best
          confidence := bestConf
          alternative_languages := alternatives
          language_code := best
          is_reliable := decide ((0.6 : ℚ) < bestConf) }
      | (none, _) => fallback.getD (detectWithPatterns text)

/-! ## Ensemble detection (`_ensemble_detection`, lines 138-195) -/

/-- `methods = ['langid', 'langdetect', 'pattern', 'feature']` (line 143). -/
def ensembleMethods : List String := ["langid", "langdetect", "pattern", "feature"]

/-- The non-ensemble part of `detect_language` (lines 105-136): empty-text
guard, then dispatch on the method name; an unknown method raises `ValueError`.
(The ensemble branch calls `detect_language` only with the four method names
below, so the recursion unfolds into this function.) -/
def detectLanguageNonEnsemble (o : Oracles) (text : String) (m : String) :
    Except Unit LanguageDetectionResult :=
  if allWhitespace text then .ok unknownResult
  else if m = "langid" then .ok (detectWithLangid o text)
  else if m = "langdetect" then .ok (detectWithLangdetect o text)
  else if m = "pattern" then .ok (detectWithPatterns text)
  else if m = "feature" then .ok (detectWithFeatures text)
  else .error ()

/-- The vote-collection loop (lines 140-151): a strategy whose call raised is
skipped (`continue`), and only results with `is_reliable` are kept. -/
def reliableResults (outcomes : List (Except Unit LanguageDetectionResult)) :
    List LanguageDetectionResult :=
  outcomes.filterMap (fun oc =>
    match oc with
    | .ok r => if r.is_reliable then some r else none
    | .error _ => none)

/-- The voters for a code: `results` filtered to `language_code == c`. -/
def votersFor (results : List LanguageDetectionResult) (c : String) :
    List LanguageDetectionResult :=
  results.filter (fun r => r.language_code = c)

/-- `language_votes[c]` (lines 158-163). -/
def voteCount (results : List LanguageDetectionResult) (c : String) : ℕ :=
  (votersFor results c).length

/-- `confidence_sum[c]` (lines 159-166). -/
def confSum (results : List LanguageDetectionResult) (c : String) : ℚ :=
  ((votersFor results c).map (·.confidence)).sum

/-- The keys of the `language_votes` Counter in insertion order: the distinct
codes of `results` in first-occurrence order. -/
def codesInOrder (results : List LanguageDetectionResult) : List String :=
  firstOccur (results.map (·.language_code))

/-- The aggregation step of `_ensemble_detection` (lines 153-195):
empty vote list falls back to `_detect_with_patterns`; otherwise the winner is
`most_common(1)` (first maximum), its confidence the mean of its voters'
confidences, and the alternatives the remaining codes in `most_common()` order
(count-descending, stable) with their mean confidences, truncated to 3. -/
def ensembleAggregate (text : String) (results : List LanguageDetectionResult) :
    LanguageDetectionResult :=
  if results.isEmpty then detectWithPatterns text
  else
    match firstMaxBy (voteCount results) (codesInOrder results) with
    | none => unknownResult
    | some mv =>
      let confidence : ℚ := confSum results mv / (voteCount results mv : ℚ)
      let alternatives :=
        (((sortDescBy (voteCount results) (codesInOrder results)).filter
            (fun c => decide (c ≠ mv))).map
          (fun c => (langName c, confSum results c / (voteCount results c : ℚ)))).take 3
      { detected_language := langName mv
        confidence := confidence
        alternative_languages := alternatives
        language_code := mv
        is_reliable := decide ((0.6 : ℚ) < confidence) }

/-- `_ensemble_detection` applied to an explicit list of strategy outcomes. -/
def ensembleFromOutcomes (text : String)
    (outcomes : List (Except Unit LanguageDetectionResult)) : LanguageDetectionResult :=
  ensembleAggregate text (reliableResults outcomes)

/-- `LanguageDetector._ensemble_detection` (lines 138-195). -/
def ensembleDetection (o : Oracles) (text : String) : LanguageDetectionResult :=
  ensembleFromOutcomes text (ensembleMethods.map (detectLanguageNonEnsemble o text))

/-- `LanguageDetector.detect_language` (lines 105-136). -/
def detectLanguage (o : Oracles) (text : String) (m : String) :
    Except Unit LanguageDetectionResult :=
  if allWhitespace text then .ok unknownResult
  else if m = "ensemble" then .ok (ensembleDetection o text)
  else detectLanguageNonEnsemble o text m

/-! ## Detection metrics (`calculate_metrics`, lines 415-485) -/

/-- `LanguageMetrics` dataclass (lines 30-37).  The confusion matrix is kept as
a counting function over (ground-truth, predicted) codes. -/
structure LanguageMetrics where
  accuracy : ℚ
  precision : ℚ
  «recall» : ℚ
  f1_score : ℚ
  confusion_matrix : String → String → ℕ

/-- `confusion_matrix[gt][pred]` after the fill loop (lines 433-436): pairs are
counted only when both codes are supported. -/
def confusionCount (preds gts : List String) (gt pred : String) : ℕ :=
  ((preds.zip gts).filter (fun p =>
    decide (p.1 = pred) && decide (p.2 = gt) &&
    decide (p.1 ∈ supportedCodes) && decide (p.2 ∈ supportedCodes))).length

/-- `LanguageDetector.calculate_metrics` (lines 415-485); the length-mismatch
`ValueError` is the `Except.error` case. -/
def calculateMetrics (preds gts : List String) : Except Unit LanguageMetrics :=
  if preds.length ≠ gts.length then .error ()
  else
    let cm := confusionCount preds gts
    let totalCorrect : ℕ := (supportedCodes.map (fun c => cm c c)).sum
    let totalPredictions : ℕ := preds.length
    let precisionSum : ℚ :=
      (supportedCodes.map (fun c =>
        let tp : ℕ := cm c c
        let fp : ℕ := ((supportedCodes.filter (fun d => d ≠ c)).map (fun d => cm d c)).sum
        if 0 < tp + fp then (tp : ℚ) / ((tp : ℚ) + (fp : ℚ)) else 0)).sum
    let recallSum : ℚ :=
      (supportedCodes.map (fun c =>
        let tp : ℕ := cm c c
        let fn : ℕ := ((supportedCodes.filter (fun d => d ≠ c)).map (fun d => cm c d)).sum
        if 0 < tp + fn then (tp : ℚ) / ((tp : ℚ) + (fn : ℚ)) else 0)).sum
    let accuracy : ℚ :=
      if 0 < totalPredictions then (totalCorrect : ℚ) / (totalPredictions : ℚ) else 0
    let avgPrecision : ℚ := precisionSum / (supportedCodes.length : ℚ)
    let avgRecall : ℚ := recallSum / (supportedCodes.length : ℚ)
    let f1 : ℚ :=
      if 0 < avgPrecision + avgRecall then
        2 * (avgPrecision * avgRecall) / (avgPrecision + avgRecall)
      else 0
    .ok { accuracy := accuracy, precision := avgPrecision, «recall» := avgRecall,
          f1_score := f1, confusion_matrix := cm }

/-! ## NLG evaluation (`visual_to_text.py`, `evaluate_generation` lines 310-391) -/

/-- The `details` dict of `EvaluationMetrics`: on success it holds
`element_type`/`generated_length`/`reference_length`, on failure an `error`
marker (lines 344-348 and 357). -/
inductive EvalDetails where
  | success (element_type : String) (generated_length reference_length : ℕ)
  | failure (error : String)
deriving DecidableEq, Repr

/-- `EvaluationMetrics` dataclass (lines 37-43). -/
structure EvaluationMetrics where
  bleurt_score : ℚ
  bertscore_score : ℚ
  combined_score : ℚ
  details : EvalDetails
deriving DecidableEq, Repr

/-- Oracles for the external scorers of `evaluate_generation`:

* `bertScore`: `self.bertscorer` — `none` when the scorer failed to load
  (line 94); otherwise `F1.mean().item()` of `bertscorer.score`, which may
  raise (the error string is `str(e)`).
* `sentenceBleu`: `nltk`'s `sentence_bleu` on the reference/generated token
  lists; may raise.
* `sequenceRatio`: `difflib.SequenceMatcher(None, a, b).ratio()`. -/
structure EvalOracles where
  bertScore : Option (String → String → Except String ℚ)
  sentenceBleu : List String → List String → Except String ℚ
  sequenceRatio : String → String → ℚ

/-- Python `str.split()`: split on whitespace runs, dropping empty pieces. -/
def pySplit (s : String) : List String :=
  ((s.data.splitOnP pyIsSpace).filter (fun w => w ≠ [])).map (fun w => ⟨w⟩)

/-- Python `str.strip()`. -/
def stripChars (l : List Char) : List Char :=
  ((l.dropWhile pyIsSpace).reverse.dropWhile pyIsSpace).reverse

def pyStrip (s : String) : String := ⟨stripChars s.data⟩

/-- `VisualToTextGenerator._calculate_simple_similarity` (lines 380-391). -/
def calculateSimpleSimilarity (o : EvalOracles) (t1 t2 : String) : ℚ :=
  o.sequenceRatio (pyStrip (lowerStr t1)) (pyStrip (lowerStr t2))

/-- `VisualToTextGenerator._calculate_bleu_score` (lines 360-378): tokenize the
lowered texts on whitespace, call `sentence_bleu`, and on any exception fall
back to `_calculate_simple_similarity`. -/
def calculateBleuScore (o : EvalOracles) (generated reference : String) : ℚ :=
  match o.sentenceBleu (pySplit (lowerStr reference)) (pySplit (lowerStr generated)) with
  | .ok v => v
  | .error _ => calculateSimpleSimilarity o generated reference

/-- The combined-score branch of `evaluate_generation` (lines 332-338). -/
def combinedScore (elementType : String) (bleurt bert : ℚ) : ℚ :=
  if elementType = "chart" ∨ elementType = "map" then (bleurt + bert) / 2
  else bleurt * 0.3 + bert * 0.7

/-- `VisualToTextGenerator.evaluate_generation` (lines 310-358).  The only
statement inside the `try` block that can raise is the BERT scorer call;
its exception is caught and turned into the all-zero metrics with an `error`
marker in `details` (lines 351-358). -/
def evaluateGeneration (o : EvalOracles) (generated reference elementType : String) :
    EvaluationMetrics :=
  let bertRes : Except String ℚ :=
    match o.bertScore with
    | none => .ok 0
    | some f => f generated reference
  match bertRes with
  | .error e =>
    { bleurt_score := 0, bertscore_score := 0, combined_score := 0,
      details := .failure e }
  | .ok bert =>
    let bleurt := calculateBleuScore o generated reference
    { bleurt_score := bleurt
      bertscore_score := bert
      combined_score := combinedScore elementType bleurt bert
      details := .success elementType generated.data.length reference.data.length }

/-! ## OCR post-processing (`multilingual_ocr.py`) -/

/-- `TextRegion` dataclass; `bbox = [x, y, w, h]`. -/
structure TextRegion where
  x : ℚ
  y : ℚ
  w : ℚ
  h : ℚ
  text : String
  confidence : ℚ
  language : String
  language_confidence : ℚ
deriving DecidableEq, Repr

/-- The character classes kept by `_clean_text` (line 262):
`\w` (word characters; modelled as ASCII alphanumerics plus underscore, the
ASCII part of Python's unicode `\w` — the non-ASCII letters this repository
handles are all inside the explicitly listed ranges), `\s`, and the
Arabic/Devanagari blocks `؀-ۿ`, `ऀ-ॿ`, `ݐ-ݿ`,
`ࢠ-ࣿ`, `ﭐ-﷿`, `ﹰ-﻿`. -/
def keepChar (c : Char) : Bool :=
  ('0' ≤ c && c ≤ '9') || ('a' ≤ c && c ≤ 'z') || ('A' ≤ c && c ≤ 'Z') || c == '_' ||
  pyIsSpace c ||
  (0x600 ≤ c.toNat && c.toNat ≤ 0x6FF) || (0x900 ≤ c.toNat && c.toNat ≤ 0x97F) ||
  (0x750 ≤ c.toNat && c.toNat ≤ 0x77F) || (0x8A0 ≤ c.toNat && c.toNat ≤ 0x8FF) ||
  (0xFB50 ≤ c.toNat && c.toNat ≤ 0xFDFF) || (0xFE70 ≤ c.toNat && c.toNat ≤ 0xFEFF)

/-- `re.sub(r'\s+', ' ', text)`: collapse each whitespace run to one space. -/
def collapseWs : List Char → List Char
  | [] => []
  | c :: cs =>
    if pyIsSpace c then ' ' :: collapseWs (cs.dropWhile pyIsSpace)
    else c :: collapseWs cs
termination_by l => l.length
decreasing_by
  · exact Nat.lt_succ_of_le (List.dropWhile_sublist _).length_le
  · exact Nat.lt_succ_self _

/-- `MultilingualOCR._clean_text` (lines 256-264): collapse whitespace, drop
OCR-artifact characters, strip. -/
def cleanText (s : String) : String :=
  ⟨stripChars ((collapseWs s.data).filter keepChar)⟩

/-- Python's stable ascending sort key `(bbox[1], bbox[0])` = `(y, x)`. -/
def posKey (r : TextRegion) : ℚ ×ₗ ℚ := toLex (r.y, r.x)

/-- `MultilingualOCR._post_process_text_regions` (lines 240-254): keep regions
whose cleaned text is non-empty (with the cleaned text substituted), then
stable-sort by `(y, x)`. -/
def postProcessTextRegions (regions : List TextRegion) : List TextRegion :=
  let processed := regions.filterMap (fun reg =>
    let cleaned := cleanText reg.text
    if cleaned ≠ "" ∧ pyStrip cleaned ≠ "" then some { reg with text := cleaned } else none)
  List.insertionSort (fun a b => posKey a ≤ posKey b) processed

/-- `OCRResult` (the fields produced by `extract_text`, minus the wall-clock
`processing_time`). -/
structure OCRResult where
  text_regions : List TextRegion
  overall_text : String
  detected_languages : List String
deriving DecidableEq, Repr

/-- The pure tail of `MultilingualOCR.extract_text` (lines 117-133), applied to
the raw regions coming out of whichever reader produced them: post-process,
join the texts with single spaces, and collect the distinct languages
(`list(set(...))`, whose order Python leaves unspecified; modelled in
first-occurrence order). -/
def extractTextCore (regions : List TextRegion) : OCRResult :=
  let processed := postProcessTextRegions regions
  { text_regions := processed
    overall_text := String.intercalate " " (processed.map (·.text))
    detected_languages := firstOccur (processed.map (·.language)) }

/-! ## Helper lemmas

Batteries marks the `Rat` arithmetic operations `@[irreducible]`; restore the
default reducibility so that concrete rational computations can be settled by
`decide`. -/

attribute [local semireducible] Rat.add Rat.sub Rat.mul Rat.inv Rat.ofScientific

theorem firstMaxBy_eq_none {α β : Type} [LinearOrder β] (f : α → β) (l : List α) :
    firstMaxBy f l = none ↔ l = [] := by
  cases l with
  | nil => simp [firstMaxBy]
  | cons a t =>
    simp only [firstMaxBy]
    cases firstMaxBy f t with
    | none => simp
    | some b =>
      by_cases hc : f b > f a <;> simp [hc]

theorem firstMaxBy_mem {α β : Type} [LinearOrder β] (f : α → β) (l : List α) (w : α)
    (h : firstMaxBy f l = some w) : w ∈ l := by
  induction l with
  | nil => simp [firstMaxBy] at h
  | cons a t ih =>
    simp only [firstMaxBy] at h
    cases ht : firstMaxBy f t with
    | none =>
      simp only [ht, Option.some.injEq] at h
      subst h
      exact List.mem_cons_self a t
    | some b =>
      simp only [ht] at h
      by_cases hc : f b > f a
      · rw [if_pos hc] at h
        simp only [Option.some.injEq] at h
        subst h
        exact List.mem_cons_of_mem a (ih ht)
      · rw [if_neg hc] at h
        simp only [Option.some.injEq] at h
        subst h
        exact List.mem_cons_self a t

theorem firstMaxBy_le {α β : Type} [LinearOrder β] (f : α → β) (l : List α) :
    ∀ w, firstMaxBy f l = some w → ∀ c ∈ l, f c ≤ f w := by
  induction l with
  | nil => intro w h; simp [firstMaxBy] at h
  | cons a t ih =>
    intro w h
    simp only [firstMaxBy] at h
    cases ht : firstMaxBy f t with
    | none =>
      have htnil : t = [] := (firstMaxBy_eq_none f t).mp ht
      subst htnil
      simp only [ht, Option.some.injEq] at h
      subst h
      intro c hc
      rcases List.mem_cons.mp hc with rfl | habs
      · exact le_refl _
      · cases habs
    | some b =>
      simp only [ht] at h
      by_cases hgt : f b > f a
      · rw [if_pos hgt] at h
        simp only [Option.some.injEq] at h
        subst h
        intro c hc
        rcases List.mem_cons.mp hc with rfl | hct
        · exact le_of_lt hgt
        · exact ih b ht c hct
      · rw [if_neg hgt] at h
        simp only [Option.some.injEq] at h
        subst h
        intro c hc
        rcases List.mem_cons.mp hc with rfl | hct
        · exact le_refl _
        · exact le_trans (ih b ht c hct) (not_lt.mp hgt)

theorem firstMaxBy_findIdx_le {α β : Type} [LinearOrder β] [DecidableEq α]
    (f : α → β) (l : List α) :
    ∀ w, firstMaxBy f l = some w → ∀ c ∈ l, f c = f w →
      l.findIdx (fun x => x = w) ≤ l.findIdx (fun x => x = c) := by
  induction l with
  | nil => intro w h; simp [firstMaxBy] at h
  | cons a t ih =>
    intro w h
    simp only [firstMaxBy] at h
    cases ht : firstMaxBy f t with
    | none =>
      simp only [ht, Option.some.injEq] at h
      subst h
      intro c hc hfc
      simp [List.findIdx_cons]
    | some b =>
      simp only [ht] at h
      by_cases hgt : f b > f a
      · rw [if_pos hgt] at h
        simp only [Option.some.injEq] at h
        subst h
        intro c hc hfc
        have hba : ¬(a = b) := by
          intro he
          rw [he] at hgt
          exact absurd hgt (lt_irrefl _)
        rcases List.mem_cons.mp hc with rfl | hct
        · rw [hfc] at hgt
          exact absurd hgt (lt_irrefl _)
        · have hca : ¬(a = c) := by
            intro he
            rw [he, hfc] at hgt
            exact absurd hgt (lt_irrefl _)
          rw [List.findIdx_cons, List.findIdx_cons]
          simp only [hba, hca, decide_False, cond_false]
          exact Nat.add_le_add_right (ih b ht c hct hfc) 1
      · rw [if_neg hgt] at h
        simp only [Option.some.injEq] at h
        subst h
        intro c hc hfc
        rw [List.findIdx_cons]
        simp

theorem sortDescBy_pairwise {α β : Type} [LinearOrder β] (f : α → β) (l : List α) :
    (sortDescBy f l).Pairwise (fun a b => f b ≤ f a) := by
  haveI : IsTotal α (fun a b => f b ≤ f a) := ⟨fun a b => le_total (f b) (f a)⟩
  haveI : IsTrans α (fun a b => f b ≤ f a) := ⟨fun _ _ _ hab hbc => le_trans hbc hab⟩
  exact List.sorted_insertionSort _ l

theorem sortDescBy_mem {α β : Type} [LinearOrder β] (f : α → β) (l : List α) (c : α) :
    c ∈ sortDescBy f l ↔ c ∈ l :=
  (List.perm_insertionSort _ l).mem_iff

theorem mem_firstOccur (c : String) (l : List String) : c ∈ firstOccur l ↔ c ∈ l := by
  induction l with
  | nil => simp [firstOccur]
  | cons x xs ih =>
    by_cases hcx : c = x
    · subst hcx
      simp [firstOccur]
    · simp [firstOccur, List.mem_filter, hcx, ih]

theorem firstOccur_ne_nil (l : List String) (h : l ≠ []) : firstOccur l ≠ [] := by
  cases l with
  | nil => exact absurd rfl h
  | cons x xs => simp [firstOccur]

/-- Bound for a quotient `s / n` with `0 ≤ s ≤ n` (`ℚ` division by zero is zero). -/
theorem div_nat_bound (s : ℚ) (n : ℕ) (h0 : 0 ≤ s) (h1 : s ≤ (n : ℚ)) :
    0 ≤ s / (n : ℚ) ∧ s / (n : ℚ) ≤ 1 := by
  rcases Nat.eq_zero_or_pos n with hn | hn
  · subst hn
    have hs : s = 0 := le_antisymm (by exact_mod_cast h1) h0
    subst hs
    norm_num
  · have hpos : (0 : ℚ) < (n : ℚ) := by exact_mod_cast hn
    exact ⟨div_nonneg h0 (le_of_lt hpos), (div_le_one hpos).mpr h1⟩

theorem list_sum_bound (l : List ℚ) (h : ∀ x ∈ l, 0 ≤ x ∧ x ≤ 1) :
    0 ≤ l.sum ∧ l.sum ≤ (l.length : ℚ) := by
  induction l with
  | nil => simp
  | cons x xs ih =>
    have hx := h x (List.mem_cons_self x xs)
    have hxs := ih (fun y hy => h y (List.mem_cons_of_mem x hy))
    simp only [List.sum_cons, List.length_cons, Nat.cast_add, Nat.cast_one]
    constructor
    · linarith [hx.1, hxs.1]
    · linarith [hx.2, hxs.2]

/-- The mean of a non-empty list of values in `[0, 1]` lies in `[0, 1]`. -/
theorem mean_bound (l : List ℚ) (_hne : l ≠ []) (h : ∀ x ∈ l, 0 ≤ x ∧ x ≤ 1) :
    0 ≤ l.sum / (l.length : ℚ) ∧ l.sum / (l.length : ℚ) ≤ 1 := by
  have := list_sum_bound l h
  exact div_nat_bound l.sum l.length this.1 this.2

/-! ## Confidence-bound lemmas (towards claim C3) -/

/-- The external oracles report probabilities in `[0, 1]`.  `langdetect` always
does; `langid` does only when probability normalization is enabled. -/
def BoundedOracles (o : Oracles) : Prop :=
  (∀ s c q, o.langidClassify s = .ok (c, q) → 0 ≤ q ∧ q ≤ 1) ∧
  (∀ s l, o.detectLangs s = .ok l → ∀ p ∈ l, 0 ≤ p.2 ∧ p.2 ≤ 1)

theorem patternScore_bound (text : String) (pat : Char → Bool) :
    0 ≤ patternScore text pat ∧ patternScore text pat ≤ 1 := by
  unfold patternScore
  split
  · exact div_nat_bound _ _ (by positivity) (by exact_mod_cast List.countP_le_length pat)
  · norm_num

theorem detectWithPatterns_conf_bound (text : String) :
    0 ≤ (detectWithPatterns text).confidence ∧ (detectWithPatterns text).confidence ≤ 1 := by
  unfold detectWithPatterns
  cases hb : firstMaxBy (fun p => p.2) (languagePatterns.map (fun p => (p.1, patternScore text p.2))) with
  | none =>
    simp only [hb]
    simp [unknownResult]
  | some best =>
    have hmem := firstMaxBy_mem _ _ _ hb
    rw [List.mem_map] at hmem
    obtain ⟨p, _, hp⟩ := hmem
    simp only [hb]
    have hgoal : (0 : ℚ) ≤ best.2 ∧ best.2 ≤ 1 := by
      rw [← hp]
      exact patternScore_bound text p.2
    exact hgoal

theorem wordScoreOf_bound (text : String) (words : List String) :
    0 ≤ wordScoreOf text words ∧ wordScoreOf text words ≤ 1 := by
  unfold wordScoreOf
  exact div_nat_bound _ _ (by positivity) (by exact_mod_cast List.countP_le_length _)

theorem charScoreOf_bound (text : String) (freqs : List (Char × ℚ))
    (hf : ∀ q ∈ freqs, 0 ≤ q.2 ∧ q.2 ≤ 1) :
    0 ≤ charScoreOf text freqs ∧ charScoreOf text freqs ≤ 1 := by
  unfold charScoreOf
  split
  · next hpos =>
    have hterm : ∀ x ∈ freqs.map (fun p =>
        1 - |p.2 - ((text.data.map pyToLower).count p.1 : ℚ) / (text.data.length : ℚ)|),
        0 ≤ x ∧ x ≤ 1 := by
      intro x hx
      rw [List.mem_map] at hx
      obtain ⟨q, hq, hqx⟩ := hx
      have hqb := hf q hq
      have hact : 0 ≤ ((text.data.map pyToLower).count q.1 : ℚ) / (text.data.length : ℚ) ∧
          ((text.data.map pyToLower).count q.1 : ℚ) / (text.data.length : ℚ) ≤ 1 := by
        apply div_nat_bound _ _ (by positivity)
        have := List.count_le_length q.1 (text.data.map pyToLower)
        rw [List.length_map] at this
        exact_mod_cast this
      subst hqx
      constructor
      · have : |q.2 - ((text.data.map pyToLower).count q.1 : ℚ) / (text.data.length : ℚ)| ≤ 1 :=
          abs_le.mpr ⟨by linarith [hqb.1, hqb.2, hact.1, hact.2],
                      by linarith [hqb.1, hqb.2, hact.1, hact.2]⟩
        linarith
      · have : 0 ≤ |q.2 - ((text.data.map pyToLower).count q.1 : ℚ) / (text.data.length : ℚ)| :=
          abs_nonneg _
        linarith
    have hs := list_sum_bound _ hterm
    rw [List.length_map] at hs
    exact div_nat_bound _ _ hs.1 hs.2
  · norm_num

theorem featureScore_bound (text : String) (words : List String) (freqs : List (Char × ℚ))
    (hf : ∀ q ∈ freqs, 0 ≤ q.2 ∧ q.2 ≤ 1) :
    0 ≤ featureScore text words freqs ∧ featureScore text words freqs ≤ 1 := by
  have hw := wordScoreOf_bound text words
  have hc := charScoreOf_bound text freqs hf
  unfold featureScore
  constructor
  · have h1 : (0 : ℚ) ≤ wordScoreOf text words * 0.6 := by
      nlinarith [hw.1]
    have h2 : (0 : ℚ) ≤ charScoreOf text freqs * 0.4 := by
      nlinarith [hc.1]
    linarith
  · nlinarith [hw.1, hw.2, hc.1, hc.2]

/-- Every entry of every `character_freq` table lies in `[0, 1]`. -/
theorem languageFeatures_freq_bound :
    ∀ p ∈ languageFeatures, ∀ q ∈ p.2.2, 0 ≤ q.2 ∧ q.2 ≤ 1 := by decide

theorem detectWithFeatures_conf_bound (text : String) :
    0 ≤ (detectWithFeatures text).confidence ∧ (detectWithFeatures text).confidence ≤ 1 := by
  unfold detectWithFeatures
  cases hb : firstMaxBy (fun p => p.2)
      (languageFeatures.map (fun p => (p.1, featureScore text p.2.1 p.2.2))) with
  | none =>
    simp only [hb]
    simp [unknownResult]
  | some best =>
    have hmem := firstMaxBy_mem _ _ _ hb
    rw [List.mem_map] at hmem
    obtain ⟨p, hpl, hp⟩ := hmem
    simp only [hb]
    have hgoal : (0 : ℚ) ≤ best.2 ∧ best.2 ≤ 1 := by
      rw [← hp]
      exact featureScore_bound text p.2.1 p.2.2 (languageFeatures_freq_bound p hpl)
    exact hgoal

theorem findClosestLanguage_conf_bound (d : String) (q : ℚ) (h0 : 0 ≤ q) (h1 : q ≤ 1) :
    0 ≤ (findClosestLanguage d q).confidence ∧ (findClosestLanguage d q).confidence ≤ 1 := by
  simp only [findClosestLanguage]
  split
  · constructor
    · simp only
      nlinarith
    · simp only
      nlinarith
  · norm_num

theorem detectWithLangid_conf_bound (o : Oracles) (text : String) (hb : BoundedOracles o) :
    0 ≤ (detectWithLangid o text).confidence ∧ (detectWithLangid o text).confidence ≤ 1 := by
  unfold detectWithLangid
  cases hc : o.langidClassify text with
  | error e =>
    simp only [hc]
    exact detectWithPatterns_conf_bound text
  | ok p =>
    obtain ⟨code, conf⟩ := p
    have hq := hb.1 text code conf hc
    simp only [hc]
    by_cases hcs : code ∈ supportedCodes
    · rw [if_pos hcs]
      exact hq
    · rw [if_neg hcs]
      exact findClosestLanguage_conf_bound code conf hq.1 hq.2

theorem bestSupported_conf_bound (langs : List (String × ℚ))
    (h : ∀ p ∈ langs, 0 ≤ p.2 ∧ p.2 ≤ 1) :
    0 ≤ (bestSupported langs).2 ∧ (bestSupported langs).2 ≤ 1 := by
  unfold bestSupported
  suffices hgen : ∀ acc : Option String × ℚ, 0 ≤ acc.2 ∧ acc.2 ≤ 1 →
      0 ≤ (langs.foldl
        (fun acc p => if p.1 ∈ supportedCodes ∧ acc.2 < p.2 then (some p.1, p.2) else acc)
        acc).2 ∧
      (langs.foldl
        (fun acc p => if p.1 ∈ supportedCodes ∧ acc.2 < p.2 then (some p.1, p.2) else acc)
        acc).2 ≤ 1 by
    exact hgen (none, 0) (by norm_num)
  induction langs with
  | nil => intro acc hacc; simpa using hacc
  | cons p ps ih =>
    intro acc hacc
    rw [List.foldl_cons]
    apply ih (fun q hq => h q (List.mem_cons_of_mem p hq))
    split
    · exact h p (List.mem_cons_self p ps)
    · exact hacc

theorem detectWithLangdetect_conf_bound (o : Oracles) (text : String) (hb : BoundedOracles o) :
    0 ≤ (detectWithLangdetect o text).confidence ∧
      (detectWithLangdetect o text).confidence ≤ 1 := by
  have hfb : 0 ≤ ((match o.detectOne text with
        | .ok code =>
          if code ∈ supportedCodes then
            some ({ detected_language := langName code, confidence := 0.8,
                    alternative_languages := [], language_code := code,
                    is_reliable := true } : LanguageDetectionResult)
          else none
        | .error _ => none).getD (detectWithPatterns text)).confidence ∧
      ((match o.detectOne text with
        | .ok code =>
          if code ∈ supportedCodes then
            some ({ detected_language := langName code, confidence := 0.8,
                    alternative_languages := [], language_code := code,
                    is_reliable := true } : LanguageDetectionResult)
          else none
        | .error _ => none).getD (detectWithPatterns text)).confidence ≤ 1 := by
    cases hd : o.detectOne text with
    | ok code =>
      simp only [hd]
      by_cases hcs : code ∈ supportedCodes
      · rw [if_pos hcs]
        norm_num
      · rw [if_neg hcs]
        simpa using detectWithPatterns_conf_bound text
    | error e =>
      simp only [hd]
      simpa using detectWithPatterns_conf_bound text
  unfold detectWithLangdetect
  cases hl : o.detectLangs text with
  | error e =>
    simp only [hl]
    exact detectWithPatterns_conf_bound text
  | ok languages =>
    simp only [hl]
    split
    · exact hfb
    · cases hbs : bestSupported languages with
      | mk fst snd =>
        cases fst with
        | some best =>
          simp only [hbs]
          have hbound := bestSupported_conf_bound languages (hb.2 text languages hl)
          rw [hbs] at hbound
          exact hbound
        | none =>
          simp only [hbs]
          exact hfb

theorem votersFor_ne_nil (results : List LanguageDetectionResult) (c : String)
    (h : c ∈ codesInOrder results) : votersFor results c ≠ [] := by
  unfold codesInOrder at h
  rw [mem_firstOccur] at h
  rw [List.mem_map] at h
  obtain ⟨r, hr, hrc⟩ := h
  have : r ∈ votersFor results c := by
    unfold votersFor
    rw [List.mem_filter]
    exact ⟨hr, by simp [hrc]⟩
  intro hnil
  rw [hnil] at this
  cases this

theorem ensembleAggregate_conf_bound (text : String) (results : List LanguageDetectionResult)
    (h : ∀ r ∈ results, 0 ≤ r.confidence ∧ r.confidence ≤ 1) :
    0 ≤ (ensembleAggregate text results).confidence ∧
      (ensembleAggregate text results).confidence ≤ 1 := by
  unfold ensembleAggregate
  split
  · exact detectWithPatterns_conf_bound text
  · cases hm : firstMaxBy (voteCount results) (codesInOrder results) with
    | none => simp [unknownResult]
    | some mv =>
      simp only
      have hne : votersFor results mv ≠ [] :=
        votersFor_ne_nil results mv (firstMaxBy_mem _ _ _ hm)
      have hnem : (votersFor results mv).map (·.confidence) ≠ [] := by
        simpa using hne
      have hbd : ∀ x ∈ (votersFor results mv).map (·.confidence), 0 ≤ x ∧ x ≤ 1 := by
        intro x hx
        rw [List.mem_map] at hx
        obtain ⟨r, hr, hrx⟩ := hx
        have : r ∈ results := List.mem_of_mem_filter hr
        exact hrx ▸ h r this
      have := mean_bound _ hnem hbd
      rw [List.length_map] at this
      unfold confSum voteCount
      exact this

theorem mem_reliableResults (outcomes : List (Except Unit LanguageDetectionResult))
    (r : LanguageDetectionResult) (h : r ∈ reliableResults outcomes) :
    Except.ok r ∈ outcomes := by
  unfold reliableResults at h
  rw [List.mem_filterMap] at h
  obtain ⟨oc, hoc, hf⟩ := h
  cases oc with
  | ok r2 =>
    by_cases hr : r2.is_reliable
    · simp only [hr, if_true, Option.some.injEq] at hf
      exact hf ▸ hoc
    · simp [hr] at hf
  | error e => simp at hf

theorem detectLanguageNonEnsemble_conf_bound (o : Oracles) (text m : String)
    (r : LanguageDetectionResult) (hb : BoundedOracles o)
    (h : detectLanguageNonEnsemble o text m = .ok r) :
    0 ≤ r.confidence ∧ r.confidence ≤ 1 := by
  unfold detectLanguageNonEnsemble at h
  split_ifs at h with h1 h2 h3 h4 h5
  · injection h with h
    subst h
    norm_num [unknownResult]
  · injection h with h
    subst h
    exact detectWithLangid_conf_bound o text hb
  · injection h with h
    subst h
    exact detectWithLangdetect_conf_bound o text hb
  · injection h with h
    subst h
    exact detectWithPatterns_conf_bound text
  · injection h with h
    subst h
    exact detectWithFeatures_conf_bound text

theorem ensembleDetection_conf_bound (o : Oracles) (text : String) (hb : BoundedOracles o) :
    0 ≤ (ensembleDetection o text).confidence ∧ (ensembleDetection o text).confidence ≤ 1 := by
  unfold ensembleDetection ensembleFromOutcomes
  apply ensembleAggregate_conf_bound
  intro r hr
  have hok := mem_reliableResults _ _ hr
  rw [List.mem_map] at hok
  obtain ⟨m, _, hmr⟩ := hok
  exact detectLanguageNonEnsemble_conf_bound o text m r hb hmr

/-! ## Claim theorems -/

/-- An oracle environment reporting external scores a detection library could
return; `langid` reports its default un-normalized (negative) log-probability. -/
def rawLangidOracle : Oracles :=
  { langidClassify := fun _ => .ok ("en", -54.4)
    detectLangs := fun _ => .error ()
    detectOne := fun _ => .error () }

/-- A well-behaved oracle environment: every reported score is in `[0, 1]`. -/
def boundedOracle : Oracles :=
  { langidClassify := fun _ => .ok ("en", 0.9)
    detectLangs := fun _ => .ok [("en", 0.9)]
    detectOne := fun _ => .ok "en" }

theorem boundedOracle_bounded : BoundedOracles boundedOracle := by
  constructor
  · intro s c q h
    simp only [boundedOracle] at h
    injection h with h
    rw [Prod.mk.injEq] at h
    obtain ⟨h1, h2⟩ := h
    subst h2
    norm_num
  · intro s l h
    simp only [boundedOracle] at h
    injection h with h
    subst h
    intro p hp
    simp only [List.mem_singleton] at hp
    subst hp
    norm_num

/-- C3, counterexample: `_detect_with_langid` passes the library's confidence
through unchanged, so with `langid`'s default un-normalized log-probability
output (here `-54.4`, the library's documented behaviour without
`norm_probs`), `detect_language(text, 'langid')` returns a confidence outside
`[0, 1]`. -/
theorem claim3_counterexample :
    (detectLanguage rawLangidOracle "Hello" "langid").map (fun r => r.confidence) =
        .ok (-54.4) ∧ ((-54.4 : ℚ) < 0) := by
  constructor
  · decide
  · decide

/-- C3 (amended): provided every external classifier reports confidences in
`[0, 1]` (true of `langdetect`; true of `langid` only with probability
normalization), `detect_language` returns a confidence in `[0, 1]` for every
text and method; the `pattern` and `feature` strategies satisfy this
unconditionally. -/
theorem claim3_amended_confidence_range (o : Oracles) (hb : BoundedOracles o)
    (text m : String) (r : LanguageDetectionResult)
    (h : detectLanguage o text m = .ok r) :
    0 ≤ r.confidence ∧ r.confidence ≤ 1 := by
  unfold detectLanguage at h
  split_ifs at h with h1 h2
  · injection h with h
    subst h
    norm_num [unknownResult]
  · injection h with h
    subst h
    exact ensembleDetection_conf_bound o text hb
  · exact detectLanguageNonEnsemble_conf_bound o text m r hb h

theorem claim3_amended_witness :
    BoundedOracles boundedOracle ∧
      (0 : ℚ) ≤ (0.9 : ℚ) ∧ (0.9 : ℚ) ≤ 1 :=
  ⟨boundedOracle_bounded,
    claim3_amended_confidence_range boundedOracle boundedOracle_bounded "Hello" "langid"
      { detected_language := "English", confidence := 0.9, alternative_languages := [],
        language_code := "en", is_reliable := true } (by decide)⟩

/-- C4: a strategy whose invocation raises contributes nothing to the ensemble:
its outcome is skipped by the vote-collection loop (lines 143-151), so both the
reliable-vote list and the final `_ensemble_detection` result are the same as
if the strategy had not run at all — no zero-confidence or substitute vote. -/
theorem claim4_error_strategy_abstains (text : String)
    (pre post : List (Except Unit LanguageDetectionResult)) (e : Unit) :
    reliableResults (pre ++ Except.error e :: post) = reliableResults (pre ++ post) ∧
      ensembleFromOutcomes text (pre ++ Except.error e :: post) =
        ensembleFromOutcomes text (pre ++ post) := by
  have hl : reliableResults (pre ++ Except.error e :: post) = reliableResults (pre ++ post) := by
    unfold reliableResults
    rw [List.filterMap_append, List.filterMap_append, List.filterMap_cons]
  exact ⟨hl, by unfold ensembleFromOutcomes; rw [hl]⟩

/-- C5: when no reliable vote remains, `_ensemble_detection` returns exactly
the result of the character-range pattern strategy (lines 153-155); total
abstention therefore produces an ordinary `LanguageDetectionResult` (at worst
with `is_reliable = false`), never an error. -/
theorem claim5_total_abstention_fallback (text : String)
    (outcomes : List (Except Unit LanguageDetectionResult))
    (h : reliableResults outcomes = []) :
    ensembleFromOutcomes text outcomes = detectWithPatterns text := by
  unfold ensembleFromOutcomes
  rw [h]
  unfold ensembleAggregate
  simp

theorem claim5_witness :
    reliableResults [Except.error ()] = ([] : List LanguageDetectionResult) ∧
      ensembleFromOutcomes "abc" [Except.error ()] = detectWithPatterns "abc" :=
  ⟨rfl, claim5_total_abstention_fallback "abc" [Except.error ()] rfl⟩

/-- C8: for empty or whitespace-only text, `detect_language` returns the
"Unknown" decision with confidence `0`, code `"unknown"`, `is_reliable = false`
and no alternatives, before dispatching to any strategy: the result does not
depend on the oracle environment nor on the requested method (even an invalid
method name does not raise). -/
theorem claim8_empty_text_guard (o : Oracles) (text m : String)
    (h : ∀ c ∈ text.data, pyIsSpace c) :
    detectLanguage o text m =
      .ok { detected_language := "Unknown", confidence := 0, alternative_languages := [],
            language_code := "unknown", is_reliable := false } := by
  have hw : allWhitespace text = true := by
    unfold allWhitespace
    rw [List.all_eq_true]
    exact h
  unfold detectLanguage
  rw [if_pos hw]
  rfl

theorem claim8_witness :
    (∀ c ∈ ("   " : String).data, pyIsSpace c) ∧
      detectLanguage boundedOracle "   " "ensemble" =
        .ok { detected_language := "Unknown", confidence := 0, alternative_languages := [],
              language_code := "unknown", is_reliable := false } :=
  ⟨by decide, claim8_empty_text_guard boundedOracle "   " "ensemble" (by decide)⟩

theorem combinedScore_chart (b s : ℚ) : combinedScore "chart" b s = (b + s) / 2 := by
  unfold combinedScore
  rw [if_pos (Or.inl rfl)]

theorem combinedScore_map (b s : ℚ) : combinedScore "map" b s = (b + s) / 2 := by
  unfold combinedScore
  rw [if_pos (Or.inr rfl)]

theorem combinedScore_table (b s : ℚ) : combinedScore "table" b s = 0.3 * b + 0.7 * s := by
  unfold combinedScore
  rw [if_neg (by decide)]
  ring

/-- C6: the only fallible statement inside `evaluate_generation`'s `try` block
is the BERT scorer call; when it raises, the function still returns a complete
`EvaluationMetrics` with all three scores `0` and the exception message as an
`error` marker in `details` — nothing propagates past this boundary. -/
theorem claim6_eval_failure_returns_zeros (o : EvalOracles) (g r et : String)
    (f : String → String → Except String ℚ) (e : String)
    (hf : o.bertScore = some f) (he : f g r = .error e) :
    evaluateGeneration o g r et =
      { bleurt_score := 0, bertscore_score := 0, combined_score := 0,
        details := .failure e } := by
  unfold evaluateGeneration
  rw [hf]
  simp only [he]

/-- An evaluation-oracle environment whose BERT scorer always raises. -/
def failingEvalOracle : EvalOracles :=
  { bertScore := some (fun _ _ => .error "model unavailable")
    sentenceBleu := fun _ _ => .ok 0.5
    sequenceRatio := fun _ _ => 0.5 }

theorem claim6_witness :
    failingEvalOracle.bertScore = some (fun _ _ => .error "model unavailable") ∧
      evaluateGeneration failingEvalOracle "a cat" "a dog" "chart" =
        { bleurt_score := 0, bertscore_score := 0, combined_score := 0,
          details := .failure "model unavailable" } :=
  ⟨rfl, claim6_eval_failure_returns_zeros failingEvalOracle "a cat" "a dog" "chart"
    (fun _ _ => .error "model unavailable") "model unavailable" rfl rfl⟩

/-- C9: `combined_score` is the convex combination of the two scores with
weights `0.5/0.5` for `chart` and `map` and `0.3` primary / `0.7` secondary
for `table`, on the success path and (trivially, all scores being `0`) on the
failure path. -/
theorem claim9_combined_score_weights (o : EvalOracles) (g r : String) :
    ((evaluateGeneration o g r "chart").combined_score =
        ((evaluateGeneration o g r "chart").bleurt_score +
          (evaluateGeneration o g r "chart").bertscore_score) / 2) ∧
    ((evaluateGeneration o g r "map").combined_score =
        ((evaluateGeneration o g r "map").bleurt_score +
          (evaluateGeneration o g r "map").bertscore_score) / 2) ∧
    ((evaluateGeneration o g r "table").combined_score =
        0.3 * (evaluateGeneration o g r "table").bleurt_score +
          0.7 * (evaluateGeneration o g r "table").bertscore_score) := by
  unfold evaluateGeneration
  cases hbo : o.bertScore with
  | none =>
    simp only
    exact ⟨combinedScore_chart _ _, combinedScore_map _ _, combinedScore_table _ _⟩
  | some f =>
    cases hbr : f g r with
    | error e =>
      simp only [hbr]
      norm_num
    | ok b =>
      simp only [hbr]
      exact ⟨combinedScore_chart _ _, combinedScore_map _ _, combinedScore_table _ _⟩

/-! ## Claims C1 and C2 -/

/-- An oracle environment producing a 1-1 vote tie between `en` (earlier
strategy, lower confidence) and `hi` (later strategy, higher confidence)
on the text `"....."`, on which the pattern and feature strategies are
unreliable. -/
def tieOracle : Oracles :=
  { langidClassify := fun _ => .ok ("en", 0.8)
    detectLangs := fun _ => .ok [("hi", 0.95)]
    detectOne := fun _ => .error () }

/-- The reliable votes collected by `_ensemble_detection` in that environment. -/
def tieVotes : List LanguageDetectionResult :=
  reliableResults (ensembleMethods.map (detectLanguageNonEnsemble tieOracle "....."))

/-- C1, counterexample: on `"....."` under `tieOracle` the ensemble collects
exactly one vote for `"en"` (confidence `0.8`, from the first strategy) and one
for `"hi"` (confidence `0.95`, from the second).  The votes tie and the
accumulated confidence favours `"hi"`, yet the returned winner is `"en"`:
`Counter.most_common` breaks ties purely by insertion order, never by
accumulated confidence. -/
theorem claim1_counterexample :
    voteCount tieVotes "en" = 1 ∧ voteCount tieVotes "hi" = 1 ∧
      confSum tieVotes "en" < confSum tieVotes "hi" ∧
      (ensembleDetection tieOracle ".....").language_code = "en" := by
  refine ⟨by decide, by decide, by decide, by decide⟩

/-- C1 (amended): when at least one reliable vote remains, the winning
`language_code` has maximal vote count, and among codes tied at that maximum
the winner is the one whose first reliable vote entered the tally earliest
(i.e. the earliest position in the insertion-ordered code list, which follows
the strategy order langid, langdetect, pattern, feature) — accumulated
confidence plays no role in the tie-break. -/
theorem claim1_amended_tie_break (text : String) (results : List LanguageDetectionResult)
    (hne : results ≠ []) :
    (ensembleAggregate text results).language_code ∈ codesInOrder results ∧
    (∀ c ∈ codesInOrder results,
      voteCount results c ≤ voteCount results (ensembleAggregate text results).language_code) ∧
    (∀ c ∈ codesInOrder results,
      voteCount results c = voteCount results (ensembleAggregate text results).language_code →
        (codesInOrder results).findIdx
            (fun x => x = (ensembleAggregate text results).language_code) ≤
          (codesInOrder results).findIdx (fun x => x = c)) := by
  have hco : codesInOrder results ≠ [] := by
    unfold codesInOrder
    apply firstOccur_ne_nil
    cases results with
    | nil => exact absurd rfl hne
    | cons r rs => simp
  cases hm : firstMaxBy (voteCount results) (codesInOrder results) with
  | none => exact absurd ((firstMaxBy_eq_none _ _).mp hm) hco
  | some mv =>
    have hemp : ¬(results.isEmpty = true) := by
      cases results with
      | nil => exact absurd rfl hne
      | cons r rs => simp
    have hcode : (ensembleAggregate text results).language_code = mv := by
      unfold ensembleAggregate
      rw [if_neg hemp]
      simp only [hm]
    rw [hcode]
    exact ⟨firstMaxBy_mem _ _ _ hm, firstMaxBy_le _ _ mv hm,
           fun c hc hv => firstMaxBy_findIdx_le _ _ mv hm c hc hv⟩

/-- A single reliable vote, used to instantiate the amended C1 statement. -/
def oneVote : LanguageDetectionResult :=
  { detected_language := "English", confidence := 1, alternative_languages := [],
    language_code := "en", is_reliable := true }

theorem claim1_amended_witness :
    ([oneVote] ≠ ([] : List LanguageDetectionResult)) ∧
      ((ensembleAggregate "x" [oneVote]).language_code ∈ codesInOrder [oneVote] ∧
      (∀ c ∈ codesInOrder [oneVote],
        voteCount [oneVote] c ≤ voteCount [oneVote] (ensembleAggregate "x" [oneVote]).language_code) ∧
      (∀ c ∈ codesInOrder [oneVote],
        voteCount [oneVote] c = voteCount [oneVote] (ensembleAggregate "x" [oneVote]).language_code →
          (codesInOrder [oneVote]).findIdx
              (fun x => x = (ensembleAggregate "x" [oneVote]).language_code) ≤
            (codesInOrder [oneVote]).findIdx (fun x => x = c))) :=
  ⟨by decide, claim1_amended_tie_break "x" [oneVote] (by decide)⟩

/-- An oracle environment producing three single votes, in strategy order:
`en` at confidence `0.8`, `hi` at `0.62`, and (from the pattern strategy on
the Arabic-script text `"ششش"`) `ur` at confidence `1`. -/
def skewOracle : Oracles :=
  { langidClassify := fun _ => .ok ("en", 0.8)
    detectLangs := fun _ => .ok [("hi", 0.62)]
    detectOne := fun _ => .error () }

/-- C2, counterexample: the ensemble decision for `"ششش"` under `skewOracle`
has alternatives `[("Hindi", 0.62), ("Urdu", 1)]` — ordered by vote count and
insertion, not sorted by descending confidence (`0.62 < 1`) — and the winner's
confidence `0.8` is strictly below the alternative `("Urdu", 1)`. -/
theorem claim2_counterexample :
    (ensembleDetection skewOracle "ششش").alternative_languages =
        [("Hindi", 0.62), ("Urdu", 1)] ∧
      (ensembleDetection skewOracle "ششش").confidence = 0.8 ∧
      ((0.62 : ℚ) < 1) ∧ ((0.8 : ℚ) < 1) := by
  refine ⟨by decide, by decide, by decide, by decide⟩

theorem alt_chain_pairwise (scores : List (String × ℚ)) (thr : ℚ) :
    List.Pairwise (fun a b : String × ℚ => b.2 ≤ a.2)
      (((((sortDescBy (fun p => p.2) scores).drop 1).take 3).filter
        (fun p => decide (thr < p.2))).map (fun p => (langName p.1, p.2))) := by
  have hs := sortDescBy_pairwise (fun p : String × ℚ => p.2) scores
  have h1 := List.Pairwise.sublist (List.drop_sublist 1 _) hs
  have h2 := List.Pairwise.sublist (List.take_sublist 3 _) h1
  have h3 := List.Pairwise.sublist
    (@List.filter_sublist (String × ℚ) (fun p => decide (thr < p.2)) _) h2
  rw [List.pairwise_map]
  exact h3

theorem alt_chain_le (scores : List (String × ℚ)) (thr : ℚ) (best : String × ℚ)
    (hb : firstMaxBy (fun p => p.2) scores = some best) :
    ∀ a ∈ ((((sortDescBy (fun p => p.2) scores).drop 1).take 3).filter
        (fun p => decide (thr < p.2))).map (fun p => (langName p.1, p.2)),
      a.2 ≤ best.2 := by
  intro a ha
  rw [List.mem_map] at ha
  obtain ⟨p, hp, rfl⟩ := ha
  have hp1 : p ∈ (((sortDescBy (fun p => p.2) scores).drop 1).take 3) :=
    (List.filter_sublist _).subset hp
  have hp2 : p ∈ ((sortDescBy (fun p => p.2) scores).drop 1) :=
    (List.take_sublist 3 _).subset hp1
  have hp3 : p ∈ sortDescBy (fun p => p.2) scores :=
    (List.drop_sublist 1 _).subset hp2
  have hp4 : p ∈ scores := (sortDescBy_mem _ _ _).mp hp3
  exact firstMaxBy_le (fun p => p.2) scores best hb p hp4

/-- `_detect_with_patterns` does produce confidence-sorted alternatives that
never exceed the winner. -/
theorem detectWithPatterns_alt_prop (text : String) :
    List.Pairwise (fun a b : String × ℚ => b.2 ≤ a.2)
        (detectWithPatterns text).alternative_languages ∧
      ∀ a ∈ (detectWithPatterns text).alternative_languages,
        a.2 ≤ (detectWithPatterns text).confidence := by
  unfold detectWithPatterns
  cases hb : firstMaxBy (fun p => p.2)
      (languagePatterns.map (fun p => (p.1, patternScore text p.2))) with
  | none =>
    simp only [hb]
    simp [unknownResult]
  | some best =>
    simp only [hb]
    exact ⟨alt_chain_pairwise _ _, alt_chain_le _ _ best hb⟩

theorem detectWithPatterns_alt_len (text : String) :
    (detectWithPatterns text).alternative_languages.length ≤ 3 := by
  unfold detectWithPatterns
  cases hb : firstMaxBy (fun p => p.2)
      (languagePatterns.map (fun p => (p.1, patternScore text p.2))) with
  | none =>
    simp only [hb]
    simp [unknownResult]
  | some best =>
    simp only [hb, List.length_map]
    calc (((((sortDescBy (fun p => p.2)
          (languagePatterns.map (fun p => (p.1, patternScore text p.2)))).drop 1).take 3).filter
            (fun p => decide ((0.1 : ℚ) < p.2)))).length
        ≤ ((((sortDescBy (fun p => p.2)
          (languagePatterns.map (fun p => (p.1, patternScore text p.2)))).drop 1).take 3)).length :=
          List.length_filter_le _ _
      _ ≤ 3 := by
          rw [List.length_take]
          exact min_le_left _ _

theorem detectWithFeatures_alt_len (text : String) :
    (detectWithFeatures text).alternative_languages.length ≤ 3 := by
  unfold detectWithFeatures
  cases hb : firstMaxBy (fun p => p.2)
      (languageFeatures.map (fun p => (p.1, featureScore text p.2.1 p.2.2))) with
  | none =>
    simp only [hb]
    simp [unknownResult]
  | some best =>
    simp only [hb, List.length_map]
    calc (((((sortDescBy (fun p => p.2)
          (languageFeatures.map (fun p => (p.1, featureScore text p.2.1 p.2.2)))).drop 1).take
            3).filter (fun p => decide ((0.1 : ℚ) < p.2)))).length
        ≤ ((((sortDescBy (fun p => p.2)
          (languageFeatures.map (fun p => (p.1, featureScore text p.2.1 p.2.2)))).drop 1).take
            3)).length := List.length_filter_le _ _
      _ ≤ 3 := by
          rw [List.length_take]
          exact min_le_left _ _

theorem findClosestLanguage_alt_len (d : String) (q : ℚ) :
    (findClosestLanguage d q).alternative_languages.length ≤ 3 := by
  simp only [findClosestLanguage]
  split
  · simp
  · simp

theorem detectWithLangid_alt_len (o : Oracles) (text : String) :
    (detectWithLangid o text).alternative_languages.length ≤ 3 := by
  unfold detectWithLangid
  cases hc : o.langidClassify text with
  | error e =>
    simp only [hc]
    exact detectWithPatterns_alt_len text
  | ok p =>
    obtain ⟨code, conf⟩ := p
    simp only [hc]
    by_cases hcs : code ∈ supportedCodes
    · rw [if_pos hcs]
      simp
    · rw [if_neg hcs]
      exact findClosestLanguage_alt_len code conf

theorem detectWithLangdetect_alt_len (o : Oracles) (text : String) :
    (detectWithLangdetect o text).alternative_languages.length ≤ 3 := by
  have hfb : ((match o.detectOne text with
        | .ok code =>
          if code ∈ supportedCodes then
            some ({ detected_language := langName code, confidence := 0.8,
                    alternative_languages := [], language_code := code,
                    is_reliable := true } : LanguageDetectionResult)
          else none
        | .error _ => none).getD (detectWithPatterns text)).alternative_languages.length ≤ 3 := by
    cases hd : o.detectOne text with
    | ok code =>
      simp only [hd]
      by_cases hcs : code ∈ supportedCodes
      · rw [if_pos hcs]
        simp
      · rw [if_neg hcs]
        simpa using detectWithPatterns_alt_len text
    | error e =>
      simp only [hd]
      simpa using detectWithPatterns_alt_len text
  unfold detectWithLangdetect
  cases hl : o.detectLangs text with
  | error e =>
    simp only [hl]
    exact detectWithPatterns_alt_len text
  | ok languages =>
    simp only [hl]
    split
    · exact hfb
    · cases hbs : bestSupported languages with
      | mk fst snd =>
        cases fst with
        | some best =>
          simp only [hbs, List.length_take]
          calc min 3 ((languages.filter (fun p =>
                  decide (p.1 ≠ best) && decide (p.1 ∈ supportedCodes))).map
                    (fun p => (langName p.1, p.2))).length ≤ 3 := min_le_left _ _
        | none =>
          simp only [hbs]
          exact hfb

theorem ensembleAggregate_alt_len (text : String) (results : List LanguageDetectionResult) :
    (ensembleAggregate text results).alternative_languages.length ≤ 3 := by
  unfold ensembleAggregate
  split
  · exact detectWithPatterns_alt_len text
  · cases hm : firstMaxBy (voteCount results) (codesInOrder results) with
    | none => simp [unknownResult]
    | some mv =>
      simp only [hm, List.length_take]
      exact min_le_left _ _

theorem detectLanguageNonEnsemble_alt_len (o : Oracles) (text m : String)
    (r : LanguageDetectionResult) (h : detectLanguageNonEnsemble o text m = .ok r) :
    r.alternative_languages.length ≤ 3 := by
  unfold detectLanguageNonEnsemble at h
  split_ifs at h with h1 h2 h3 h4 h5
  · injection h with h
    subst h
    simp [unknownResult]
  · injection h with h
    subst h
    exact detectWithLangid_alt_len o text
  · injection h with h
    subst h
    exact detectWithLangdetect_alt_len o text
  · injection h with h
    subst h
    exact detectWithPatterns_alt_len text
  · injection h with h
    subst h
    exact detectWithFeatures_alt_len text

/-- `_detect_with_features` also produces confidence-sorted alternatives that
never exceed the winner. -/
theorem detectWithFeatures_alt_prop (text : String) :
    List.Pairwise (fun a b : String × ℚ => b.2 ≤ a.2)
        (detectWithFeatures text).alternative_languages ∧
      ∀ a ∈ (detectWithFeatures text).alternative_languages,
        a.2 ≤ (detectWithFeatures text).confidence := by
  unfold detectWithFeatures
  cases hb : firstMaxBy (fun p => p.2)
      (languageFeatures.map (fun p => (p.1, featureScore text p.2.1 p.2.2))) with
  | none =>
    simp only [hb]
    simp [unknownResult]
  | some best =>
    simp only [hb]
    exact ⟨alt_chain_pairwise _ _, alt_chain_le _ _ best hb⟩

/-- `_detect_with_langid` returns either no alternatives at all or (on a raised
library exception) the pattern result, so its alternatives are always sorted
and dominated by the winner. -/
theorem detectWithLangid_alt_prop (o : Oracles) (text : String) :
    List.Pairwise (fun a b : String × ℚ => b.2 ≤ a.2)
        (detectWithLangid o text).alternative_languages ∧
      ∀ a ∈ (detectWithLangid o text).alternative_languages,
        a.2 ≤ (detectWithLangid o text).confidence := by
  unfold detectWithLangid
  cases hc : o.langidClassify text with
  | error e =>
    simp only [hc]
    exact detectWithPatterns_alt_prop text
  | ok p =>
    obtain ⟨code, conf⟩ := p
    simp only [hc]
    by_cases hcs : code ∈ supportedCodes
    · rw [if_pos hcs]
      simp
    · rw [if_neg hcs]
      simp only [findClosestLanguage]
      split
      · simp
      · simp

/-- The `best_confidence` fold never decreases. -/
theorem bestSupported_foldl_le (langs : List (String × ℚ)) (acc : Option String × ℚ) :
    acc.2 ≤ (langs.foldl
      (fun acc p => if p.1 ∈ supportedCodes ∧ acc.2 < p.2 then (some p.1, p.2) else acc)
      acc).2 := by
  induction langs generalizing acc with
  | nil => exact le_refl _
  | cons p ps ih =>
    rw [List.foldl_cons]
    refine le_trans ?_ (ih _)
    split
    · next hcond => exact le_of_lt hcond.2
    · exact le_refl _

/-- `best_confidence` dominates the probability of every supported language in
the list. -/
theorem bestSupported_ge (langs : List (String × ℚ)) :
    ∀ p ∈ langs, p.1 ∈ supportedCodes → p.2 ≤ (bestSupported langs).2 := by
  unfold bestSupported
  suffices hgen : ∀ acc : Option String × ℚ, ∀ p ∈ langs, p.1 ∈ supportedCodes →
      p.2 ≤ (langs.foldl
        (fun acc p => if p.1 ∈ supportedCodes ∧ acc.2 < p.2 then (some p.1, p.2) else acc)
        acc).2 by
    exact hgen (none, 0)
  induction langs with
  | nil => intro acc p hp; cases hp
  | cons q qs ih =>
    intro acc p hp hps
    rw [List.foldl_cons]
    rcases List.mem_cons.mp hp with rfl | hpt
    · refine le_trans ?_ (bestSupported_foldl_le qs _)
      by_cases hlt : acc.2 < p.2
      · rw [if_pos ⟨hps, hlt⟩]
      · rw [if_neg (fun hcond => hlt hcond.2)]
        exact le_of_not_lt hlt
    · exact ih _ p hpt hps

/-- In `_detect_with_langdetect` every alternative's probability is at most the
winner's confidence (the winner's probability is the maximum over supported
languages; the fallback paths return no alternatives or the pattern result). -/
theorem detectWithLangdetect_alt_max (o : Oracles) (text : String) :
    ∀ a ∈ (detectWithLangdetect o text).alternative_languages,
      a.2 ≤ (detectWithLangdetect o text).confidence := by
  have hfb : ∀ a ∈ ((match o.detectOne text with
        | .ok code =>
          if code ∈ supportedCodes then
            some ({ detected_language := langName code, confidence := 0.8,
                    alternative_languages := [], language_code := code,
                    is_reliable := true } : LanguageDetectionResult)
          else none
        | .error _ => none).getD (detectWithPatterns text)).alternative_languages,
      a.2 ≤ ((match o.detectOne text with
        | .ok code =>
          if code ∈ supportedCodes then
            some ({ detected_language := langName code, confidence := 0.8,
                    alternative_languages := [], language_code := code,
                    is_reliable := true } : LanguageDetectionResult)
          else none
        | .error _ => none).getD (detectWithPatterns text)).confidence := by
    cases hd : o.detectOne text with
    | ok code =>
      simp only [hd]
      by_cases hcs : code ∈ supportedCodes
      · rw [if_pos hcs]
        simp
      · rw [if_neg hcs]
        simpa using (detectWithPatterns_alt_prop text).2
    | error e =>
      simp only [hd]
      simpa using (detectWithPatterns_alt_prop text).2
  unfold detectWithLangdetect
  cases hl : o.detectLangs text with
  | error e =>
    simp only [hl]
    exact (detectWithPatterns_alt_prop text).2
  | ok languages =>
    simp only [hl]
    split
    · exact hfb
    · cases hbs : bestSupported languages with
      | mk fst snd =>
        cases fst with
        | some best =>
          simp only [hbs]
          intro a ha
          have ha2 := (List.take_sublist 3 _).subset ha
          rw [List.mem_map] at ha2
          obtain ⟨p, hp, rfl⟩ := ha2
          have hpl : p ∈ languages := (List.filter_sublist _).subset hp
          have hps : p.1 ∈ supportedCodes := by
            have hcond := (List.mem_filter.mp hp).2
            simp only [Bool.and_eq_true, decide_eq_true_eq] at hcond
            exact hcond.2
          have hle := bestSupported_ge languages p hpl hps
          rw [hbs] at hle
          exact hle
        | none =>
          simp only [hbs]
          exact hfb

/-- C2 (amended): `alternatives` always contains at most 3 entries, for every
method including the ensemble.  The pattern, feature and langid strategies
return alternatives sorted by descending confidence and never exceeding the
winner's confidence; the langdetect strategy's alternatives never exceed the
winner's confidence (their order mirrors the library's reported order).  The
ensemble result itself satisfies neither sortedness nor the winner bound: its
alternatives are ordered by descending vote count, see the counterexample. -/
theorem claim2_amended_alternatives (o : Oracles) (text m : String)
    (r : LanguageDetectionResult) (h : detectLanguage o text m = .ok r) :
    r.alternative_languages.length ≤ 3 ∧
      (List.Pairwise (fun a b : String × ℚ => b.2 ≤ a.2)
          (detectWithPatterns text).alternative_languages ∧
        ∀ a ∈ (detectWithPatterns text).alternative_languages,
          a.2 ≤ (detectWithPatterns text).confidence) ∧
      (List.Pairwise (fun a b : String × ℚ => b.2 ≤ a.2)
          (detectWithFeatures text).alternative_languages ∧
        ∀ a ∈ (detectWithFeatures text).alternative_languages,
          a.2 ≤ (detectWithFeatures text).confidence) ∧
      (List.Pairwise (fun a b : String × ℚ => b.2 ≤ a.2)
          (detectWithLangid o text).alternative_languages ∧
        ∀ a ∈ (detectWithLangid o text).alternative_languages,
          a.2 ≤ (detectWithLangid o text).confidence) ∧
      (∀ a ∈ (detectWithLangdetect o text).alternative_languages,
        a.2 ≤ (detectWithLangdetect o text).confidence) := by
  refine ⟨?_, detectWithPatterns_alt_prop text, detectWithFeatures_alt_prop text,
    detectWithLangid_alt_prop o text, detectWithLangdetect_alt_max o text⟩
  unfold detectLanguage at h
  split_ifs at h with h1 h2
  · injection h with h
    subst h
    simp [unknownResult]
  · injection h with h
    subst h
    unfold ensembleDetection ensembleFromOutcomes
    exact ensembleAggregate_alt_len _ _
  · exact detectLanguageNonEnsemble_alt_len o text m r h

theorem claim2_amended_witness :
    ((detectWithPatterns "ab").alternative_languages.length ≤ 3 ∧
      List.Pairwise (fun a b : String × ℚ => b.2 ≤ a.2)
        (detectWithPatterns "ab").alternative_languages) :=
  ⟨(claim2_amended_alternatives boundedOracle "ab" "pattern"
      (detectWithPatterns "ab") (by decide)).1,
   (claim2_amended_alternatives boundedOracle "ab" "pattern"
      (detectWithPatterns "ab") (by decide)).2.1.1⟩

/-! ## Claim C7: metrics on self-comparison -/

theorem zip_self {α : Type} (l : List α) : l.zip l = l.map (fun x => (x, x)) := by
  induction l with
  | nil => rfl
  | cons x xs ih => simp [List.zip_cons_cons, ih]

theorem confusionCount_diag (l : List String) (hall : ∀ x ∈ l, x ∈ supportedCodes)
    (c : String) :
    confusionCount l l c c = l.countP (fun x => decide (x = c)) := by
  unfold confusionCount
  rw [zip_self, List.filter_map, List.length_map, ← List.countP_eq_length_filter]
  apply List.countP_congr
  intro x hx
  have hs := hall x hx
  constructor
  · intro h
    simp only [Function.comp] at h
    simp only [Bool.and_eq_true, decide_eq_true_eq] at h
    simp [h.1.1.1]
  · intro h
    simp only [decide_eq_true_eq] at h
    subst h
    simp [Function.comp, hs]

theorem map_sum_add {α : Type} (l : List α) (f g : α → ℕ) :
    (l.map (fun c => f c + g c)).sum = (l.map f).sum + (l.map g).sum := by
  induction l with
  | nil => rfl
  | cons a t ih =>
    simp only [List.map_cons, List.sum_cons, ih]
    omega

theorem sum_indicator_zero (codes : List String) (x : String) (hx : x ∉ codes) :
    (codes.map (fun c => if x = c then (1 : ℕ) else 0)).sum = 0 := by
  induction codes with
  | nil => rfl
  | cons d ds ih =>
    have hxd : ¬(x = d) := fun he => hx (he ▸ List.mem_cons_self d ds)
    have hxs : x ∉ ds := fun hm => hx (List.mem_cons_of_mem d hm)
    simp [hxd, ih hxs]

theorem sum_indicator_one (codes : List String) (x : String) (hnd : codes.Nodup)
    (hx : x ∈ codes) :
    (codes.map (fun c => if x = c then (1 : ℕ) else 0)).sum = 1 := by
  induction codes with
  | nil => cases hx
  | cons d ds ih =>
    rcases List.mem_cons.mp hx with rfl | hxs
    · have hnotin : x ∉ ds := (List.nodup_cons.mp hnd).1
      simp [sum_indicator_zero ds x hnotin]
    · have hxd : ¬(x = d) := by
        intro he
        exact (List.nodup_cons.mp hnd).1 (he ▸ hxs)
      simp only [List.map_cons, List.sum_cons, if_neg hxd]
      rw [ih (List.nodup_cons.mp hnd).2 hxs]

theorem sum_countP_eq_length (codes : List String) (hnd : codes.Nodup) :
    ∀ l : List String, (∀ x ∈ l, x ∈ codes) →
      (codes.map (fun c => l.countP (fun x => decide (x = c)))).sum = l.length := by
  intro l
  induction l with
  | nil => intro _; simp
  | cons x xs ih =>
    intro hall
    have hx := hall x (List.mem_cons_self x xs)
    have ihh := ih (fun y hy => hall y (List.mem_cons_of_mem x hy))
    have hcnt : ∀ c : String,
        (x :: xs).countP (fun y => decide (y = c)) =
          xs.countP (fun y => decide (y = c)) + (if x = c then 1 else 0) := by
      intro c
      rw [List.countP_cons]
      by_cases hxc : x = c
      · simp [hxc]
      · simp [hxc]
    rw [List.map_congr_left (fun c _ => hcnt c), map_sum_add, ihh,
        sum_indicator_one codes x hnd hx, List.length_cons]

theorem supportedCodes_nodup : supportedCodes.Nodup := by decide

/-- C7, counterexample: `calculate_metrics` only counts prediction/truth pairs
whose codes are among the six supported languages, and reports accuracy `0`
for empty input; so comparing `["xx"]` (an unsupported code) with itself — or
the empty list with itself — yields accuracy `0`, not `1.0`. -/
theorem claim7_counterexample :
    (calculateMetrics ["xx"] ["xx"]).map (fun m => m.accuracy) = .ok 0 ∧
      (calculateMetrics ([] : List String) []).map (fun m => m.accuracy) = .ok 0 ∧
      ((0 : ℚ) ≠ 1) := by
  refine ⟨by decide, by decide, by decide⟩

/-- C7 (amended): for every *non-empty* sequence of *supported* language
codes, `calculate_metrics(preds, preds)` yields accuracy exactly `1`. -/
theorem claim7_amended_self_accuracy (l : List String) (hne : l ≠ [])
    (hall : ∀ x ∈ l, x ∈ supportedCodes) :
    (calculateMetrics l l).map (fun m => m.accuracy) = .ok 1 := by
  unfold calculateMetrics
  rw [if_neg (by simp)]
  simp only [Except.map]
  have hlen : 0 < l.length := List.length_pos.mpr hne
  rw [if_pos hlen]
  have hcorrect : (supportedCodes.map (fun c => confusionCount l l c c)).sum = l.length := by
    rw [List.map_congr_left (fun c _ => confusionCount_diag l hall c)]
    exact sum_countP_eq_length supportedCodes supportedCodes_nodup l hall
  rw [hcorrect]
  congr 1
  rw [div_self]
  exact_mod_cast Nat.pos_iff_ne_zero.mp hlen

theorem claim7_amended_witness :
    (["en"] ≠ ([] : List String)) ∧
      (calculateMetrics ["en"] ["en"]).map (fun m => m.accuracy) = .ok 1 :=
  ⟨by decide, claim7_amended_self_accuracy ["en"] (by decide) (by decide)⟩

/-! ## Claim C10: OCR post-processing -/

/-- C10: for every list of raw reader regions, the post-processed
`text_regions` of `extract_text` contain no region with empty cleaned text,
are sorted top-to-bottom then left-to-right (ascending `y`, then ascending
`x`), and `overall_text` is exactly the space-joined concatenation of the
region texts in that order. -/
theorem claim10_ocr_post_processing (regions : List TextRegion) :
    (∀ r ∈ (extractTextCore regions).text_regions, r.text ≠ "") ∧
      List.Pairwise (fun a b : TextRegion => a.y < b.y ∨ (a.y = b.y ∧ a.x ≤ b.x))
        (extractTextCore regions).text_regions ∧
      (extractTextCore regions).overall_text =
        String.intercalate " " ((extractTextCore regions).text_regions.map (fun r => r.text)) := by
  refine ⟨?_, ?_, rfl⟩
  · intro r hr
    have hr2 : r ∈ regions.filterMap (fun reg =>
        let cleaned := cleanText reg.text
        if cleaned ≠ "" ∧ pyStrip cleaned ≠ "" then some { reg with text := cleaned }
        else none) :=
      (List.perm_insertionSort (fun a b => posKey a ≤ posKey b) _).mem_iff.mp hr
    rw [List.mem_filterMap] at hr2
    obtain ⟨reg, _, hf⟩ := hr2
    by_cases hcond : cleanText reg.text ≠ "" ∧ pyStrip (cleanText reg.text) ≠ ""
    · simp only [if_pos hcond, Option.some.injEq] at hf
      subst hf
      exact hcond.1
    · simp only [if_neg hcond] at hf
      cases hf
  · have hs : List.Pairwise (fun a b : TextRegion => posKey a ≤ posKey b)
        (extractTextCore regions).text_regions := by
      haveI : IsTotal TextRegion (fun a b => posKey a ≤ posKey b) :=
        ⟨fun a b => le_total (posKey a) (posKey b)⟩
      haveI : IsTrans TextRegion (fun a b => posKey a ≤ posKey b) :=
        ⟨fun _ _ _ hab hbc => le_trans hab hbc⟩
      exact List.sorted_insertionSort _ _
    refine hs.imp ?_
    intro a b hab
    exact (Prod.Lex.le_iff (a.y, a.x) (b.y, b.x)).mp hab

theorem extractTextCore_example :
    extractTextCore [] = { text_regions := [], overall_text := "", detected_languages := [] } := by
  decide

end DocAI
